import Mathlib

/-!
Shallow embedding of the foodgram-st shopping-list aggregation core
(`export_shopping_list` in `backend/api/views.py`), the cart bookmark
handler (`_handle_bookmark`), and the relevant data model
(`backend/recipes/models.py`), together with proofs of the specified
properties.

Conventions of the embedding:
* Django model rows become Lean structures; machine integers are `Nat`
  (all quantities are `PositiveSmallIntegerField`, validated ≥ 1, and the
  sums stay far below any overflow that Python would not have anyway).
* Python strings are Lean `String`s; Python compares strings
  lexicographically by code point, which is exactly the order of
  Mathlib's `LinearOrder String` (lexicographic `List Char` order on
  code points).
* `defaultdict(int)` keyed by a `(name, unit)` pair is an association
  list in insertion order with unique keys; `d[key] += q` is
  `addToTotals`.
* A Python `set` of strings is a list maintained without duplicates by
  membership-checked insertion; only its `sorted()` image is ever used,
  which is insensitive to the set's internal order.
* `sorted` on distinct elements under a total order has a unique result,
  so Mathlib's `insertionSort` embeds Python's (stable) `sorted`.
-/

namespace Foodgram

/-- Row of the `Ingredient` model: a name and a measurement unit
(`recipes/models.py`, class `Ingredient`). -/
structure Ingredient where
  name : String
  measurement_unit : String
deriving DecidableEq, Repr

/-- Row of the `IngredientAmount` through-model as seen from one recipe:
the resolved ingredient and the positive quantity
(`recipes/models.py`, class `IngredientAmount`). -/
structure IngredientAmount where
  ingredient : Ingredient
  quantity : Nat
deriving DecidableEq, Repr

/-- A recipe (`Dish` model) as the aggregator reads it: its name and its
ingredient lines `components_amounts` (`recipes/models.py`, class `Dish`). -/
structure Dish where
  name : String
  components_amounts : List IngredientAmount
deriving DecidableEq, Repr

/-- A cart entry (`ShoppingList` model row) of the requesting user, with
its recipe foreign key resolved (`select_related("recipe")`). -/
structure CartItem where
  recipe : Dish
deriving DecidableEq, Repr

/-- The aggregation key `(ingredient.name, ingredient.measurement_unit)`
built at `views.py` line 141. -/
abbrev IngKey := String × String

/-- The key of one ingredient line, as in
`key = (component.ingredient.name, component.ingredient.measurement_unit)`. -/
def keyOf (c : IngredientAmount) : IngKey :=
  (c.ingredient.name, c.ingredient.measurement_unit)

/-- One `ingredient_totals[key] += quantity` step on the
insertion-ordered association list embedding `defaultdict(int)`:
the first entry with the given key is incremented, and a missing key is
appended with the added quantity (the default 0 plus `q`). -/
def addToTotals : List (IngKey × Nat) → IngKey → Nat → List (IngKey × Nat)
  | [], key, q => [(key, q)]
  | (k, v) :: rest, key, q =>
    if k = key then (k, v + q) :: rest
    else (k, v) :: addToTotals rest key q

/-- Reading `totals[key]` with default 0: the value at the first entry
with the given key, or 0 when absent. -/
def lookupTotal : List (IngKey × Nat) → IngKey → Nat
  | [], _ => 0
  | (k, v) :: rest, key => if k = key then v else lookupTotal rest key

/-- The inner loop of `export_shopping_list` (lines 140–142): fold the
ingredient lines of one recipe into the totals dictionary. -/
def addComponents (totals : List (IngKey × Nat)) (comps : List IngredientAmount) :
    List (IngKey × Nat) :=
  comps.foldl (fun t c => addToTotals t (keyOf c) c.quantity) totals

/-- The totals dictionary built by the cart loop of
`export_shopping_list` (lines 135–142).  The Python loop updates the two
accumulators `ingredient_totals` and `recipe_names` independently; this
is the `ingredient_totals` component. -/
def ingredientTotals (cart : List CartItem) : List (IngKey × Nat) :=
  cart.foldl (fun t item => addComponents t item.recipe.components_amounts) []

/-- The `recipe_names` set component of the cart loop (line 139):
membership-checked insertion keeps the list duplicate-free, matching set
semantics (the internal order is irrelevant: only `sorted()` of it is
used). -/
def recipeNamesList (cart : List CartItem) : List String :=
  cart.foldl
    (fun s item => if item.recipe.name ∈ s then s else s ++ [item.recipe.name]) []

/-- Python's tuple comparison on `((name, unit), total)` items of the
totals dictionary, as used by `sorted(ingredient_totals.items())`:
lexicographic on name, then unit, then total. -/
def pyLE (a b : IngKey × Nat) : Prop :=
  a.1.1 < b.1.1 ∨
    (a.1.1 = b.1.1 ∧ (a.1.2 < b.1.2 ∨ (a.1.2 = b.1.2 ∧ a.2 ≤ b.2)))

instance : DecidableRel pyLE := fun a b => by
  unfold pyLE; infer_instance

instance : IsTotal (IngKey × Nat) pyLE where
  total a b := by
    rcases lt_trichotomy a.1.1 b.1.1 with h | h | h
    · exact Or.inl (Or.inl h)
    · rcases lt_trichotomy a.1.2 b.1.2 with h2 | h2 | h2
      · exact Or.inl (Or.inr ⟨h, Or.inl h2⟩)
      · rcases le_total a.2 b.2 with h3 | h3
        · exact Or.inl (Or.inr ⟨h, Or.inr ⟨h2, h3⟩⟩)
        · exact Or.inr (Or.inr ⟨h.symm, Or.inr ⟨h2.symm, h3⟩⟩)
      · exact Or.inr (Or.inr ⟨h.symm, Or.inl h2⟩)
    · exact Or.inr (Or.inl h)

instance : IsTrans (IngKey × Nat) pyLE where
  trans a b c hab hbc := by
    rcases hab with h1 | ⟨e1, h1⟩
    · rcases hbc with h2 | ⟨e2, _⟩
      · exact Or.inl (h1.trans h2)
      · exact Or.inl (e2 ▸ h1)
    · rcases hbc with h2 | ⟨e2, h2⟩
      · exact Or.inl (e1 ▸ h2)
      · refine Or.inr ⟨e1.trans e2, ?_⟩
        rcases h1 with h1 | ⟨f1, h1⟩
        · rcases h2 with h2 | ⟨f2, _⟩
          · exact Or.inl (h1.trans h2)
          · exact Or.inl (f2 ▸ h1)
        · rcases h2 with h2 | ⟨f2, h2⟩
          · exact Or.inl (f1 ▸ h2)
          · exact Or.inr ⟨f1.trans f2, h1.trans h2⟩

instance : IsAntisymm (IngKey × Nat) pyLE where
  antisymm a b hab hba := by
    rcases hab with h1 | ⟨e1, h1⟩
    · rcases hba with h2 | ⟨e2, _⟩
      · exact absurd (h1.trans h2) (lt_irrefl _)
      · exact absurd h1 (e2 ▸ lt_irrefl _)
    · rcases hba with h2 | ⟨e2, h2⟩
      · exact absurd h2 (e1 ▸ lt_irrefl _)
      · rcases h1 with h1 | ⟨f1, h1⟩
        · rcases h2 with h2 | ⟨f2, _⟩
          · exact absurd (h1.trans h2) (lt_irrefl _)
          · exact absurd h1 (f2 ▸ lt_irrefl _)
        · rcases h2 with h2 | ⟨f2, h2⟩
          · exact absurd h2 (f1 ▸ lt_irrefl _)
          · exact Prod.ext (Prod.ext e1 f1) (le_antisymm h1 h2)

/-- Strict ascending order on report keys: name first, then unit.  This
is the strictness claimed for the rendered ingredient section. -/
def keyLT (a b : IngKey × Nat) : Prop :=
  a.1.1 < b.1.1 ∨ (a.1.1 = b.1.1 ∧ a.1.2 < b.1.2)

/-- Result of `sorted(ingredient_totals.items())` at line 150. -/
def sortedTotals (cart : List CartItem) : List (IngKey × Nat) :=
  List.insertionSort pyLE (ingredientTotals cart)

/-- Result of `sorted(recipe_names)` at line 154. -/
def sortedNames (cart : List CartItem) : List String :=
  List.insertionSort (· ≤ ·) (recipeNamesList cart)

/-- Python's `str.title()` on the ASCII fragment actually exercised by
the report: a letter following a non-letter is uppercased, a letter
following a letter is lowercased, other characters pass through.  The
Boolean argument records whether the previous character was a letter. -/
def pyTitleAux : Bool → List Char → List Char
  | _, [] => []
  | prevAlpha, c :: cs =>
    (if c.isAlpha then (if prevAlpha then c.toLower else c.toUpper) else c)
      :: pyTitleAux c.isAlpha cs

/-- Python's `name.title()` used at line 151 for display only. -/
def pyTitle (s : String) : String :=
  ⟨pyTitleAux false s.data⟩

/-- Python's `enumerate(xs, i)`. -/
def enumerateFrom : Nat → List α → List (Nat × α)
  | _, [] => []
  | i, x :: xs => (i, x) :: enumerateFrom (i + 1) xs

/-- One rendered ingredient line
`f"{idx}. {name.title()} ({unit}) — {total}"` (line 151). -/
def formatIngredientLine (idx : Nat) (key : IngKey) (total : Nat) : String :=
  toString idx ++ ". " ++ pyTitle key.1 ++ " (" ++ key.2 ++ ") — " ++ toString total

/-- One rendered recipe line `f"{idx}. {name}"` (line 155). -/
def formatRecipeLine (idx : Nat) (name : String) : String :=
  toString idx ++ ". " ++ name

/-- Tail of Python's `"\n".join`: every further element prefixed by a
newline. -/
def glueLines : List String → String
  | [] => ""
  | l :: ls => "\n" ++ l ++ glueLines ls

/-- Python's `"\n".join(report_lines)` (line 157). -/
def joinLines : List String → String
  | [] => ""
  | l :: ls => l ++ glueLines ls

/-- The `report_lines` list built at lines 144–155: date header,
ingredient header, numbered sorted ingredient lines, the recipe header
carrying its leading blank line, numbered sorted recipe names. -/
def reportLines (date : String) (cart : List CartItem) : List String :=
  ["Список покупок (" ++ date ++ "):", "Ингредиенты:"]
    ++ (enumerateFrom 1 (sortedTotals cart)).map
        (fun p => formatIngredientLine p.1 p.2.1 p.2.2)
    ++ ["\nИсточники рецептов:"]
    ++ (enumerateFrom 1 (sortedNames cart)).map (fun p => formatRecipeLine p.1 p.2)

/-- The full report text (`file_content`, line 157).  The current local
date string produced by `timezone.localdate().strftime("%Y-%m-%d")` is a
parameter of the embedding. -/
def renderReport (date : String) (cart : List CartItem) : String :=
  joinLines (reportLines date cart)

/-! Specification-side definitions, written from the spec's words, to be
compared with the source-derived definitions above. -/

/-- Exact sum, demanded by the spec, of the quantities of all ingredient
lines carrying a given key, over every cart entry's recipe. -/
def specTotal (cart : List CartItem) (key : IngKey) : Nat :=
  (cart.map (fun item =>
    ((item.recipe.components_amounts.filter (fun c => keyOf c = key)).map
      (fun c => c.quantity)).sum)).sum

/-- Sum of all quantities over all ingredient lines of all recipes
referenced by the cart entries (right side of the conservation law). -/
def grandTotal (cart : List CartItem) : Nat :=
  (cart.map (fun item =>
    (item.recipe.components_amounts.map (fun c => c.quantity)).sum)).sum

/-- Content of one cart entry up to retrieval order: the recipe name and
the multiset of its ingredient lines. -/
def canonItem (i : CartItem) : String × Multiset IngredientAmount :=
  (i.recipe.name, (i.recipe.components_amounts : Multiset IngredientAmount))

/-- Two retrievals of the same stored cart: the same multiset of cart
entries, each entry's ingredient lines equal as multisets — the rows are
identical, only the order in which the database returns them differs. -/
def CartEquiv (c₁ c₂ : List CartItem) : Prop :=
  List.Perm (c₁.map canonItem) (c₂.map canonItem)

instance (c₁ c₂ : List CartItem) : Decidable (CartEquiv c₁ c₂) := by
  unfold CartEquiv; infer_instance

/-- Report layout written from the spec's words: the date header line,
the header "Ингредиенты:", the 1-based contiguously numbered ingredient
lines of the form "n. Name (unit) — total", a blank line, the header
"Источники рецептов:", and the 1-based contiguously numbered recipe
names. -/
def specReport (date : String) (cart : List CartItem) : String :=
  "Список покупок (" ++ date ++ "):" ++ "\n" ++ "Ингредиенты:"
    ++ glueLines ((sortedTotals cart).enum.map
        (fun p => formatIngredientLine (p.1 + 1) p.2.1 p.2.2))
    ++ "\n" ++ "\n" ++ "Источники рецептов:"
    ++ glueLines ((sortedNames cart).enum.map
        (fun p => formatRecipeLine (p.1 + 1) p.2))

/-! Row-level model of the database tables read or written by the
endpoints under study, for the frame and invariant claims. -/

/-- Row of the `CustomUser` model (only the fields the endpoints read). -/
structure UserRow where
  id : Nat
  username : String
deriving DecidableEq, Repr

/-- Row of the `Ingredient` table with its primary key. -/
structure IngredientRow where
  id : Nat
  name : String
  measurement_unit : String
deriving DecidableEq, Repr

/-- Row of the `Dish` table (fields used by the export). -/
structure DishRow where
  id : Nat
  name : String
  author : Nat
deriving DecidableEq, Repr

/-- Row of the `IngredientAmount` table: foreign keys and quantity. -/
structure IngredientAmountRow where
  recipe : Nat
  ingredient : Nat
  quantity : Nat
deriving DecidableEq, Repr

/-- Row shape shared by the `ShoppingList` and `Favorite` tables: a
(user, recipe) pair, mirroring how `_handle_bookmark` is generic over
the two relation models. -/
structure PairRow where
  user : Nat
  recipe : Nat
deriving DecidableEq, Repr

/-- Row of the `Follow` table. -/
structure FollowRow where
  follower : Nat
  following : Nat
deriving DecidableEq, Repr

/-- The stored state visible to the endpoints under study. -/
structure Db where
  users : List UserRow
  dishes : List DishRow
  ingredients : List IngredientRow
  ingredientAmounts : List IngredientAmountRow
  shoppingLists : List PairRow
  favorites : List PairRow
  follows : List FollowRow
deriving DecidableEq, Repr

/-- The `recipe.components_amounts.select_related("ingredient")` query:
the `IngredientAmount` rows of one recipe with each `ingredient` foreign
key resolved (foreign keys always resolve in Django; a dangling row is
skipped here, which never occurs under referential integrity). -/
def componentsOf (db : Db) (recipeId : Nat) : List IngredientAmount :=
  (db.ingredientAmounts.filter (fun r => r.recipe == recipeId)).filterMap
    (fun r => (db.ingredients.find? (fun i => i.id == r.ingredient)).map
      (fun i => ⟨⟨i.name, i.measurement_unit⟩, r.quantity⟩))

/-- The `request.user.shopping_lists.select_related("recipe")` query:
the requesting user's cart rows with the `recipe` foreign key resolved. -/
def cartItemsOf (db : Db) (userId : Nat) : List CartItem :=
  (db.shoppingLists.filter (fun r => r.user == userId)).filterMap
    (fun r => (db.dishes.find? (fun d => d.id == r.recipe)).map
      (fun d => ⟨⟨d.name, componentsOf db d.id⟩⟩))

/-- Outcome of the export endpoint: a 403 response for an
unauthenticated caller, or a `FileResponse` carrying the report. -/
inductive ExportResult where
  | forbidden (status : Nat) (detail : String)
  | file (content contentType filename : String)
deriving DecidableEq, Repr

/-- The `export_shopping_list` action (views.py lines 126–162) over the
row-level state: reject an unauthenticated caller with 403 before any
data access, otherwise aggregate and render; the stored state is
returned unchanged alongside the response in either branch. -/
def export_shopping_list (db : Db) (userId : Nat) (isAuthenticated : Bool)
    (date : String) : Db × ExportResult :=
  if isAuthenticated = false then
    (db, .forbidden 403 "Требуется авторизация")
  else
    (db, .file (renderReport date (cartItemsOf db userId)) "text/plain"
      "grocery_list.txt")

/-- Outcome of `_handle_bookmark`: 201 with the short recipe payload,
a raised `ValidationError`, or 204 after deletion. -/
inductive BookmarkResult where
  | created (status : Nat)
  | validationError (msg : String)
  | deleted (status : Nat)
deriving DecidableEq, Repr

/-- The `_handle_bookmark` helper (views.py lines 57–74) on the rows of
one relation table: POST runs `get_or_create` on the (user, recipe) pair
and raises a `ValidationError` when the pair already exists (leaving the
rows unchanged); DELETE removes every row of the pair. -/
def handle_bookmark (rows : List PairRow) (method : String)
    (userId recipeId : Nat) : List PairRow × BookmarkResult :=
  if method = "POST" then
    match rows.find? (fun e => e.user == userId && e.recipe == recipeId) with
    | some _ => (rows, .validationError "Уже добавлено")
    | none => (rows ++ [⟨userId, recipeId⟩], .created 201)
  else
    (rows.filter (fun e => !(e.user == userId && e.recipe == recipeId)),
      .deleted 204)

/-- The uniqueness invariant `user_shopping_recipe_unique`: at most one
row per (user, recipe) pair. -/
def cartInvariant (rows : List PairRow) : Prop :=
  ∀ u r, (rows.filter (fun e => e.user == u && e.recipe == r)).length ≤ 1

/-- Sum of the quantities of the ingredient lines of one recipe that
carry a given key. -/
def compSum (comps : List IngredientAmount) (k : IngKey) : Nat :=
  ((comps.filter (fun c => keyOf c = k)).map (fun c => c.quantity)).sum

/-- Per-key quantity sum of one cart entry, as a function of its
order-insensitive content. -/
def canonCompSum (k : IngKey) (p : String × Multiset IngredientAmount) : Nat :=
  ((p.2.filter (fun c => keyOf c = k)).map (fun c => c.quantity)).sum

/-! Helper lemmas about the totals dictionary. -/

lemma lookupTotal_addToTotals (t : List (IngKey × Nat)) (k k' : IngKey) (q : Nat) :
    lookupTotal (addToTotals t k q) k' =
      lookupTotal t k' + (if k' = k then q else 0) := by
  induction t with
  | nil =>
    by_cases h : k' = k
    · subst h; simp [addToTotals, lookupTotal]
    · simp only [addToTotals, lookupTotal, if_neg h, Nat.zero_add]
      rw [if_neg (fun hh : k = k' => h hh.symm)]
  | cons p rest ih =>
    obtain ⟨k₀, v₀⟩ := p
    by_cases h0 : k₀ = k
    · subst h0
      by_cases h1 : k₀ = k'
      · subst h1; simp [addToTotals, lookupTotal]
      · simp only [addToTotals, if_pos rfl, lookupTotal, if_neg h1, if_neg
          (fun hh : k' = k₀ => h1 hh.symm), Nat.add_zero]
    · by_cases h1 : k₀ = k'
      · subst h1
        simp [addToTotals, lookupTotal, h0]
      · simp [addToTotals, lookupTotal, h0, h1, ih]

lemma sum_addToTotals (t : List (IngKey × Nat)) (k : IngKey) (q : Nat) :
    ((addToTotals t k q).map Prod.snd).sum = (t.map Prod.snd).sum + q := by
  induction t with
  | nil => simp [addToTotals]
  | cons p rest ih =>
    obtain ⟨k₀, v₀⟩ := p
    by_cases h : k₀ = k
    · simp [addToTotals, h]; omega
    · simp [addToTotals, h, ih]; omega

lemma keys_addToTotals (t : List (IngKey × Nat)) (k : IngKey) (q : Nat) :
    (addToTotals t k q).map Prod.fst =
      if k ∈ t.map Prod.fst then t.map Prod.fst
      else t.map Prod.fst ++ [k] := by
  induction t with
  | nil => simp [addToTotals]
  | cons p rest ih =>
    obtain ⟨k₀, v₀⟩ := p
    by_cases h : k₀ = k
    · subst h; simp [addToTotals]
    · have hne : ¬k = k₀ := fun hh => h hh.symm
      by_cases h2 : k ∈ rest.map Prod.fst
      · simp [addToTotals, h, ih, h2, hne]
      · simp [addToTotals, h, ih, h2, hne]

lemma mem_keys_addToTotals (t : List (IngKey × Nat)) (k : IngKey) (q : Nat)
    (k' : IngKey) :
    k' ∈ (addToTotals t k q).map Prod.fst ↔ k' ∈ t.map Prod.fst ∨ k' = k := by
  rw [keys_addToTotals]
  by_cases h : k ∈ t.map Prod.fst
  · simp only [if_pos h]
    constructor
    · exact Or.inl
    · rintro (h1 | rfl)
      · exact h1
      · exact h
  · simp [if_neg h]

lemma nodupKeys_addToTotals (t : List (IngKey × Nat)) (k : IngKey) (q : Nat)
    (h : (t.map Prod.fst).Nodup) :
    ((addToTotals t k q).map Prod.fst).Nodup := by
  rw [keys_addToTotals]
  by_cases hk : k ∈ t.map Prod.fst
  · simpa [if_pos hk] using h
  · simp [if_neg hk, List.nodup_append, h, hk]

lemma mem_iff_lookupTotal (t : List (IngKey × Nat))
    (hk : (t.map Prod.fst).Nodup) (k : IngKey) (v : Nat) :
    (k, v) ∈ t ↔ (k ∈ t.map Prod.fst ∧ lookupTotal t k = v) := by
  induction t with
  | nil => simp
  | cons p rest ih =>
    obtain ⟨k₀, v₀⟩ := p
    simp only [List.map_cons, List.nodup_cons] at hk
    obtain ⟨hk0, hkrest⟩ := hk
    by_cases h : k = k₀
    · subst h
      constructor
      · intro hmem
        rcases List.mem_cons.mp hmem with h1 | h1
        · have hv : v = v₀ := congrArg Prod.snd h1
          subst hv
          exact ⟨by simp, by simp [lookupTotal]⟩
        · exact absurd (List.mem_map_of_mem Prod.fst h1) hk0
      · rintro ⟨-, hv⟩
        have hv' : v₀ = v := by simpa [lookupTotal] using hv
        subst hv'
        exact List.mem_cons_self _ _
    · have hne : ¬k₀ = k := fun hh => h hh.symm
      simp only [List.mem_cons, List.map_cons, lookupTotal, if_neg hne,
        Prod.mk.injEq]
      rw [ih hkrest]
      constructor
      · rintro (⟨h1, _⟩ | h1)
        · exact absurd h1 h
        · exact ⟨Or.inr h1.1, h1.2⟩
      · rintro ⟨h1 | h1, h2⟩
        · exact absurd h1 h
        · exact Or.inr ⟨h1, h2⟩

lemma lookupTotal_eq_zero (t : List (IngKey × Nat)) (k : IngKey)
    (h : k ∉ t.map Prod.fst) : lookupTotal t k = 0 := by
  induction t with
  | nil => rfl
  | cons p rest ih =>
    obtain ⟨k₀, v₀⟩ := p
    simp only [List.map_cons, List.mem_cons, not_or] at h
    have hne : ¬k₀ = k := fun hh => h.1 hh.symm
    simp [lookupTotal, hne, ih h.2]

lemma lookupTotal_perm {t t' : List (IngKey × Nat)} (hp : List.Perm t t')
    (hk : (t.map Prod.fst).Nodup) (k : IngKey) :
    lookupTotal t k = lookupTotal t' k := by
  have hk' : (t'.map Prod.fst).Nodup := ((hp.map Prod.fst).nodup_iff).mp hk
  by_cases hm : k ∈ t.map Prod.fst
  · have h1 : (k, lookupTotal t k) ∈ t :=
      (mem_iff_lookupTotal t hk k _).mpr ⟨hm, rfl⟩
    have h2 : (k, lookupTotal t k) ∈ t' := hp.mem_iff.mp h1
    exact ((mem_iff_lookupTotal t' hk' k _).mp h2).2.symm
  · have hm' : k ∉ t'.map Prod.fst :=
      fun h => hm (((hp.map Prod.fst).mem_iff).mpr h)
    rw [lookupTotal_eq_zero t k hm, lookupTotal_eq_zero t' k hm']

/-! Lifting the dictionary lemmas through the component loop and the
cart loop. -/

lemma specTotal_eq_sum_compSum (cart : List CartItem) (k : IngKey) :
    specTotal cart k =
      (cart.map (fun item => compSum item.recipe.components_amounts k)).sum := rfl

lemma lookupTotal_addComponents (comps : List IngredientAmount) :
    ∀ (t : List (IngKey × Nat)) (k : IngKey),
      lookupTotal (addComponents t comps) k = lookupTotal t k + compSum comps k := by
  induction comps with
  | nil => intro t k; simp [addComponents, compSum]
  | cons c cs ih =>
    intro t k
    simp only [addComponents, List.foldl_cons] at ih ⊢
    rw [ih, lookupTotal_addToTotals]
    by_cases h : keyOf c = k
    · rw [if_pos h.symm]
      have hc : compSum (c :: cs) k = c.quantity + compSum cs k := by
        simp [compSum, List.filter_cons, h]
      rw [hc]; omega
    · rw [if_neg (fun hh : k = keyOf c => h hh.symm)]
      have hc : compSum (c :: cs) k = compSum cs k := by
        simp [compSum, List.filter_cons, h]
      rw [hc]; omega

lemma sum_addComponents (comps : List IngredientAmount) :
    ∀ t : List (IngKey × Nat),
      ((addComponents t comps).map Prod.snd).sum =
        (t.map Prod.snd).sum + (comps.map (fun c => c.quantity)).sum := by
  induction comps with
  | nil => intro t; simp [addComponents]
  | cons c cs ih =>
    intro t
    simp only [addComponents, List.foldl_cons] at ih ⊢
    rw [ih, sum_addToTotals]
    simp
    omega

lemma mem_keys_addComponents (comps : List IngredientAmount) :
    ∀ (t : List (IngKey × Nat)) (k : IngKey),
      k ∈ (addComponents t comps).map Prod.fst ↔
        k ∈ t.map Prod.fst ∨ ∃ c ∈ comps, keyOf c = k := by
  induction comps with
  | nil => intro t k; simp [addComponents]
  | cons c cs ih =>
    intro t k
    simp only [addComponents, List.foldl_cons] at ih ⊢
    rw [ih, mem_keys_addToTotals]
    simp only [List.mem_cons]
    constructor
    · rintro ((h | rfl) | ⟨c', hc', rfl⟩)
      · exact Or.inl h
      · exact Or.inr ⟨c, Or.inl rfl, rfl⟩
      · exact Or.inr ⟨c', Or.inr hc', rfl⟩
    · rintro (h | ⟨c', h1 | h1, rfl⟩)
      · exact Or.inl (Or.inl h)
      · subst h1; exact Or.inl (Or.inr rfl)
      · exact Or.inr ⟨c', h1, rfl⟩

lemma nodupKeys_addComponents (comps : List IngredientAmount) :
    ∀ t : List (IngKey × Nat), (t.map Prod.fst).Nodup →
      ((addComponents t comps).map Prod.fst).Nodup := by
  induction comps with
  | nil => intro t h; simpa [addComponents] using h
  | cons c cs ih =>
    intro t h
    simp only [addComponents, List.foldl_cons] at ih ⊢
    exact ih _ (nodupKeys_addToTotals _ _ _ h)

lemma lookupTotal_totalsFoldl (cart : List CartItem) :
    ∀ (t : List (IngKey × Nat)) (k : IngKey),
      lookupTotal
          (cart.foldl (fun t item => addComponents t item.recipe.components_amounts) t)
          k
        = lookupTotal t k + specTotal cart k := by
  induction cart with
  | nil => intro t k; simp [specTotal]
  | cons item rest ih =>
    intro t k
    simp only [List.foldl_cons]
    rw [ih, lookupTotal_addComponents]
    rw [specTotal_eq_sum_compSum, specTotal_eq_sum_compSum]
    simp only [List.map_cons, List.sum_cons]
    omega

lemma lookupTotal_ingredientTotals (cart : List CartItem) (k : IngKey) :
    lookupTotal (ingredientTotals cart) k = specTotal cart k := by
  have h := lookupTotal_totalsFoldl cart [] k
  simpa [ingredientTotals, lookupTotal] using h

lemma sum_totalsFoldl (cart : List CartItem) :
    ∀ t : List (IngKey × Nat),
      ((cart.foldl (fun t item => addComponents t item.recipe.components_amounts) t).map
        Prod.snd).sum
        = (t.map Prod.snd).sum + grandTotal cart := by
  induction cart with
  | nil => intro t; simp [grandTotal]
  | cons item rest ih =>
    intro t
    simp only [List.foldl_cons]
    rw [ih, sum_addComponents]
    simp only [grandTotal, List.map_cons, List.sum_cons]
    omega

lemma sum_ingredientTotals (cart : List CartItem) :
    ((ingredientTotals cart).map Prod.snd).sum = grandTotal cart := by
  have h := sum_totalsFoldl cart []
  simpa [ingredientTotals] using h

lemma mem_keys_totalsFoldl (cart : List CartItem) :
    ∀ (t : List (IngKey × Nat)) (k : IngKey),
      k ∈ ((cart.foldl (fun t item => addComponents t item.recipe.components_amounts) t).map
          Prod.fst) ↔
        k ∈ t.map Prod.fst ∨
          ∃ item ∈ cart, ∃ c ∈ item.recipe.components_amounts, keyOf c = k := by
  induction cart with
  | nil => intro t k; simp
  | cons item rest ih =>
    intro t k
    simp only [List.foldl_cons]
    rw [ih, mem_keys_addComponents]
    simp only [List.mem_cons]
    constructor
    · rintro ((h | h) | h)
      · exact Or.inl h
      · exact Or.inr ⟨item, Or.inl rfl, h⟩
      · obtain ⟨it, h1, h2⟩ := h
        exact Or.inr ⟨it, Or.inr h1, h2⟩
    · rintro (h | ⟨it, h1 | h1, h2⟩)
      · exact Or.inl (Or.inl h)
      · subst h1; exact Or.inl (Or.inr h2)
      · exact Or.inr ⟨it, h1, h2⟩

lemma mem_keys_ingredientTotals (cart : List CartItem) (k : IngKey) :
    k ∈ (ingredientTotals cart).map Prod.fst ↔
      ∃ item ∈ cart, ∃ c ∈ item.recipe.components_amounts, keyOf c = k := by
  have h := mem_keys_totalsFoldl cart [] k
  simpa [ingredientTotals] using h

lemma nodupKeys_ingredientTotals (cart : List CartItem) :
    ((ingredientTotals cart).map Prod.fst).Nodup := by
  have h : ∀ t : List (IngKey × Nat), (t.map Prod.fst).Nodup →
      (((cart.foldl (fun t item => addComponents t item.recipe.components_amounts)
        t).map Prod.fst)).Nodup := by
    induction cart with
    | nil => intro t h; simpa using h
    | cons item rest ih =>
      intro t h
      simp only [List.foldl_cons]
      exact ih _ (nodupKeys_addComponents _ _ h)
  exact h [] (by simp)

/-! Properties of the sorted outputs. -/

lemma sortedTotals_perm (cart : List CartItem) :
    List.Perm (sortedTotals cart) (ingredientTotals cart) :=
  List.perm_insertionSort pyLE _

lemma nodupKeys_sortedTotals (cart : List CartItem) :
    ((sortedTotals cart).map Prod.fst).Nodup :=
  (((sortedTotals_perm cart).map Prod.fst).nodup_iff).mpr
    (nodupKeys_ingredientTotals cart)

lemma lookupTotal_sortedTotals (cart : List CartItem) (k : IngKey) :
    lookupTotal (sortedTotals cart) k = specTotal cart k := by
  rw [← lookupTotal_ingredientTotals cart k]
  exact lookupTotal_perm (sortedTotals_perm cart) (nodupKeys_sortedTotals cart) k

lemma sum_sortedTotals (cart : List CartItem) :
    ((sortedTotals cart).map Prod.snd).sum = grandTotal cart := by
  rw [← sum_ingredientTotals]
  exact ((sortedTotals_perm cart).map Prod.snd).sum_eq

lemma mem_keys_sortedTotals (cart : List CartItem) (k : IngKey) :
    k ∈ (sortedTotals cart).map Prod.fst ↔
      ∃ item ∈ cart, ∃ c ∈ item.recipe.components_amounts, keyOf c = k := by
  rw [← mem_keys_ingredientTotals]
  exact ((sortedTotals_perm cart).map Prod.fst).mem_iff

lemma sorted_sortedTotals (cart : List CartItem) :
    List.Sorted pyLE (sortedTotals cart) :=
  List.sorted_insertionSort pyLE _

lemma pairwise_keyLT_sortedTotals (cart : List CartItem) :
    List.Pairwise keyLT (sortedTotals cart) := by
  have h1 : List.Pairwise pyLE (sortedTotals cart) := sorted_sortedTotals cart
  have h2 : List.Pairwise (fun a b : IngKey × Nat => a.1 ≠ b.1)
      (sortedTotals cart) :=
    List.pairwise_map.mp (nodupKeys_sortedTotals cart)
  refine (h1.and h2).imp ?_
  rintro a b ⟨hle, hne⟩
  rcases hle with h | ⟨he, h⟩
  · exact Or.inl h
  · rcases h with h | ⟨he2, -⟩
    · exact Or.inr ⟨he, h⟩
    · exact absurd (Prod.ext he he2) hne

lemma mem_namesFoldl (cart : List CartItem) :
    ∀ (s : List String) (n : String),
      n ∈ cart.foldl
          (fun s item =>
            if item.recipe.name ∈ s then s else s ++ [item.recipe.name]) s ↔
        n ∈ s ∨ ∃ item ∈ cart, item.recipe.name = n := by
  induction cart with
  | nil => intro s n; simp
  | cons it rest ih =>
    intro s n
    simp only [List.foldl_cons]
    rw [ih]
    by_cases h : it.recipe.name ∈ s
    · rw [if_pos h]
      constructor
      · rintro (h1 | ⟨i, hi, rfl⟩)
        · exact Or.inl h1
        · exact Or.inr ⟨i, List.mem_cons_of_mem _ hi, rfl⟩
      · rintro (h1 | ⟨i, hi, rfl⟩)
        · exact Or.inl h1
        · rcases List.mem_cons.mp hi with rfl | hi
          · exact Or.inl h
          · exact Or.inr ⟨i, hi, rfl⟩
    · rw [if_neg h]
      constructor
      · rintro (h1 | ⟨i, hi, rfl⟩)
        · rcases List.mem_append.mp h1 with h1 | h1
          · exact Or.inl h1
          · exact Or.inr ⟨it, List.mem_cons_self _ _,
              (List.mem_singleton.mp h1).symm⟩
        · exact Or.inr ⟨i, List.mem_cons_of_mem _ hi, rfl⟩
      · rintro (h1 | ⟨i, hi, rfl⟩)
        · exact Or.inl (List.mem_append.mpr (Or.inl h1))
        · rcases List.mem_cons.mp hi with rfl | hi
          · exact Or.inl
              (List.mem_append.mpr (Or.inr (List.mem_singleton.mpr rfl)))
          · exact Or.inr ⟨i, hi, rfl⟩

lemma nodup_namesFoldl (cart : List CartItem) :
    ∀ s : List String, s.Nodup →
      (cart.foldl
        (fun s item =>
          if item.recipe.name ∈ s then s else s ++ [item.recipe.name]) s).Nodup := by
  induction cart with
  | nil => intro s h; simpa using h
  | cons it rest ih =>
    intro s h
    simp only [List.foldl_cons]
    by_cases hm : it.recipe.name ∈ s
    · rw [if_pos hm]; exact ih s h
    · rw [if_neg hm]
      exact ih _ (by simp [List.nodup_append, h, hm])

lemma mem_recipeNamesList (cart : List CartItem) (n : String) :
    n ∈ recipeNamesList cart ↔ ∃ item ∈ cart, item.recipe.name = n := by
  have h := mem_namesFoldl cart [] n
  simpa [recipeNamesList] using h

lemma nodup_recipeNamesList (cart : List CartItem) :
    (recipeNamesList cart).Nodup :=
  nodup_namesFoldl cart [] (by simp)

lemma sortedNames_perm (cart : List CartItem) :
    List.Perm (sortedNames cart) (recipeNamesList cart) :=
  List.perm_insertionSort _ _

lemma mem_sortedNames (cart : List CartItem) (n : String) :
    n ∈ sortedNames cart ↔ ∃ item ∈ cart, item.recipe.name = n := by
  rw [← mem_recipeNamesList]
  exact (sortedNames_perm cart).mem_iff

lemma nodup_sortedNames (cart : List CartItem) : (sortedNames cart).Nodup :=
  ((sortedNames_perm cart).nodup_iff).mpr (nodup_recipeNamesList cart)

lemma sorted_sortedNames (cart : List CartItem) :
    List.Sorted (· ≤ ·) (sortedNames cart) :=
  List.sorted_insertionSort _ _

lemma strict_sortedNames (cart : List CartItem) :
    List.Sorted (· < ·) (sortedNames cart) :=
  (sorted_sortedNames cart).lt_of_le (nodup_sortedNames cart)

/-! Invariance of the sorted outputs under the retrieval order. -/

lemma canonCompSum_canonItem (k : IngKey) (item : CartItem) :
    canonCompSum k (canonItem item) =
      ((item.recipe.components_amounts.filter (fun c => keyOf c = k)).map
        (fun c => c.quantity)).sum := by
  simp [canonCompSum, canonItem, Multiset.filter_coe, Multiset.map_coe,
    Multiset.sum_coe]

lemma specTotal_canon (cart : List CartItem) (k : IngKey) :
    specTotal cart k = ((cart.map canonItem).map (canonCompSum k)).sum := by
  rw [List.map_map]
  unfold specTotal
  exact congrArg List.sum
    (List.map_congr_left fun item _ => (canonCompSum_canonItem k item).symm)

lemma specTotal_equiv {c₁ c₂ : List CartItem} (h : CartEquiv c₁ c₂)
    (k : IngKey) : specTotal c₁ k = specTotal c₂ k := by
  rw [specTotal_canon c₁ k, specTotal_canon c₂ k]
  exact (h.map (canonCompSum k)).sum_eq

lemma names_canon (cart : List CartItem) (n : String) :
    (∃ item ∈ cart, item.recipe.name = n) ↔
      ∃ p ∈ cart.map canonItem, p.1 = n := by
  simp [canonItem]

lemma keys_canon (cart : List CartItem) (k : IngKey) :
    (∃ item ∈ cart, ∃ c ∈ item.recipe.components_amounts, keyOf c = k) ↔
      ∃ p ∈ cart.map canonItem, ∃ c ∈ p.2, keyOf c = k := by
  simp [canonItem, Multiset.mem_coe]

lemma mem_keys_equiv {c₁ c₂ : List CartItem} (h : CartEquiv c₁ c₂)
    (k : IngKey) :
    k ∈ (sortedTotals c₁).map Prod.fst ↔ k ∈ (sortedTotals c₂).map Prod.fst := by
  rw [mem_keys_sortedTotals, mem_keys_sortedTotals, keys_canon, keys_canon]
  constructor
  · rintro ⟨p, hp, hrest⟩; exact ⟨p, h.mem_iff.mp hp, hrest⟩
  · rintro ⟨p, hp, hrest⟩; exact ⟨p, h.mem_iff.mpr hp, hrest⟩

lemma sortedTotals_equiv {c₁ c₂ : List CartItem} (h : CartEquiv c₁ c₂) :
    sortedTotals c₁ = sortedTotals c₂ := by
  have nd₁ : (sortedTotals c₁).Nodup :=
    List.Nodup.of_map Prod.fst (nodupKeys_sortedTotals c₁)
  have nd₂ : (sortedTotals c₂).Nodup :=
    List.Nodup.of_map Prod.fst (nodupKeys_sortedTotals c₂)
  apply List.eq_of_perm_of_sorted ?_ (sorted_sortedTotals c₁)
    (sorted_sortedTotals c₂)
  rw [List.perm_ext_iff_of_nodup nd₁ nd₂]
  rintro ⟨k, v⟩
  rw [mem_iff_lookupTotal _ (nodupKeys_sortedTotals c₁),
    mem_iff_lookupTotal _ (nodupKeys_sortedTotals c₂),
    lookupTotal_sortedTotals, lookupTotal_sortedTotals, specTotal_equiv h k]
  constructor
  · rintro ⟨hm, hv⟩; exact ⟨(mem_keys_equiv h k).mp hm, hv⟩
  · rintro ⟨hm, hv⟩; exact ⟨(mem_keys_equiv h k).mpr hm, hv⟩

lemma sortedNames_equiv {c₁ c₂ : List CartItem} (h : CartEquiv c₁ c₂) :
    sortedNames c₁ = sortedNames c₂ := by
  apply List.eq_of_perm_of_sorted ?_ (sorted_sortedNames c₁)
    (sorted_sortedNames c₂)
  rw [List.perm_ext_iff_of_nodup (nodup_sortedNames c₁) (nodup_sortedNames c₂)]
  intro n
  rw [mem_sortedNames, mem_sortedNames, names_canon, names_canon]
  constructor
  · rintro ⟨p, hp, hrest⟩; exact ⟨p, h.mem_iff.mp hp, hrest⟩
  · rintro ⟨p, hp, hrest⟩; exact ⟨p, h.mem_iff.mpr hp, hrest⟩

lemma renderReport_equiv {c₁ c₂ : List CartItem} (h : CartEquiv c₁ c₂)
    (date : String) : renderReport date c₁ = renderReport date c₂ := by
  unfold renderReport reportLines
  rw [sortedTotals_equiv h, sortedNames_equiv h]

/-! Rendering lemmas. -/

lemma glueLines_append (l₁ l₂ : List String) :
    glueLines (l₁ ++ l₂) = glueLines l₁ ++ glueLines l₂ := by
  induction l₁ with
  | nil => simp [glueLines, String.empty_append]
  | cons x xs ih => simp [glueLines, ih, String.append_assoc]

lemma enumerateFrom_map_succ (l : List α) (f : Nat × α → β) :
    ∀ n, (enumerateFrom (n + 1) l).map f =
      (enumerateFrom n l).map (fun p => f (p.1 + 1, p.2)) := by
  induction l with
  | nil => intro n; rfl
  | cons x xs ih => intro n; simp [enumerateFrom, ih]

lemma enumerateFrom_zero_enum (l : List α) : enumerateFrom 0 l = l.enum := by
  have h : ∀ (n : Nat) (l : List α), enumerateFrom n l = List.enumFrom n l := by
    intro n l
    induction l generalizing n with
    | nil => rfl
    | cons x xs ih => simp [enumerateFrom, List.enumFrom, ih]
  rw [h]
  rfl

/-! Claim theorems. -/

/-- C1: for every cart, the total reported by the shopping-list export
for any (name, unit) key equals the exact sum of the quantities of all
ingredient lines carrying that key across the recipes referenced by the
cart entries; keys appear at most once in the report (lines with the
same key merge into one reported line), and the sum of all reported
totals equals the sum of all quantities over all ingredient lines of
all referenced recipes (conservation law). -/
theorem C1_totals_exact_sums (cart : List CartItem) :
    (∀ k : IngKey, lookupTotal (sortedTotals cart) k = specTotal cart k) ∧
      ((sortedTotals cart).map Prod.fst).Nodup ∧
      ((sortedTotals cart).map Prod.snd).sum = grandTotal cart :=
  ⟨fun k => lookupTotal_sortedTotals cart k, nodupKeys_sortedTotals cart,
    sum_sortedTotals cart⟩

/-- C2: the ingredient section is strictly ascending in the
(name, unit) key — name first, then unit — the recipe-name section is
strictly ascending by name, and both sorted sequences depend only on the
stored cart contents, not on the order in which cart entries and
ingredient lines are retrieved. -/
theorem C2_report_ordering (cart cart' : List CartItem)
    (h : CartEquiv cart cart') :
    List.Pairwise keyLT (sortedTotals cart) ∧
      List.Sorted (· < ·) (sortedNames cart) ∧
      sortedTotals cart = sortedTotals cart' ∧
      sortedNames cart = sortedNames cart' :=
  ⟨pairwise_keyLT_sortedTotals cart, strict_sortedNames cart,
    sortedTotals_equiv h, sortedNames_equiv h⟩

/-- Witness for C2 at a concrete cart and a reordered retrieval of the
same cart. -/
theorem C2_report_ordering_witness :
    List.Pairwise keyLT (sortedTotals
        [⟨⟨"Блины", [⟨⟨"Мука", "г"⟩, 200⟩, ⟨⟨"Яйцо", "шт"⟩, 2⟩]⟩⟩,
          ⟨⟨"Омлет", [⟨⟨"Яйцо", "шт"⟩, 3⟩]⟩⟩]) ∧
      List.Sorted (· < ·) (sortedNames
        [⟨⟨"Блины", [⟨⟨"Мука", "г"⟩, 200⟩, ⟨⟨"Яйцо", "шт"⟩, 2⟩]⟩⟩,
          ⟨⟨"Омлет", [⟨⟨"Яйцо", "шт"⟩, 3⟩]⟩⟩]) ∧
      sortedTotals
          [⟨⟨"Блины", [⟨⟨"Мука", "г"⟩, 200⟩, ⟨⟨"Яйцо", "шт"⟩, 2⟩]⟩⟩,
            ⟨⟨"Омлет", [⟨⟨"Яйцо", "шт"⟩, 3⟩]⟩⟩] =
        sortedTotals
          [⟨⟨"Омлет", [⟨⟨"Яйцо", "шт"⟩, 3⟩]⟩⟩,
            ⟨⟨"Блины", [⟨⟨"Яйцо", "шт"⟩, 2⟩, ⟨⟨"Мука", "г"⟩, 200⟩]⟩⟩] ∧
      sortedNames
          [⟨⟨"Блины", [⟨⟨"Мука", "г"⟩, 200⟩, ⟨⟨"Яйцо", "шт"⟩, 2⟩]⟩⟩,
            ⟨⟨"Омлет", [⟨⟨"Яйцо", "шт"⟩, 3⟩]⟩⟩] =
        sortedNames
          [⟨⟨"Омлет", [⟨⟨"Яйцо", "шт"⟩, 3⟩]⟩⟩,
            ⟨⟨"Блины", [⟨⟨"Яйцо", "шт"⟩, 2⟩, ⟨⟨"Мука", "г"⟩, 200⟩]⟩⟩] :=
  C2_report_ordering
    [⟨⟨"Блины", [⟨⟨"Мука", "г"⟩, 200⟩, ⟨⟨"Яйцо", "шт"⟩, 2⟩]⟩⟩,
      ⟨⟨"Омлет", [⟨⟨"Яйцо", "шт"⟩, 3⟩]⟩⟩]
    [⟨⟨"Омлет", [⟨⟨"Яйцо", "шт"⟩, 3⟩]⟩⟩,
      ⟨⟨"Блины", [⟨⟨"Яйцо", "шт"⟩, 2⟩, ⟨⟨"Мука", "г"⟩, 200⟩]⟩⟩]
    (by decide)

/-- C3 counterexample: a cart in which two cart entries reference the
same recipe (one line "Сахар"/"г" of quantity 5).  The recipe-name list
still reports the single distinct name once, but the reported total is
10, not the sum 5 of the quantities of the ingredient lines of the one
distinct referenced recipe: the line IS double-counted, refuting the
claim's "no ingredient line is double-counted". -/
theorem C3_duplicate_entry_counterexample :
    lookupTotal (sortedTotals
        [⟨⟨"Торт", [⟨⟨"Сахар", "г"⟩, 5⟩]⟩⟩, ⟨⟨"Торт", [⟨⟨"Сахар", "г"⟩, 5⟩]⟩⟩])
        ("Сахар", "г") = 10 ∧
      ¬ lookupTotal (sortedTotals
          [⟨⟨"Торт", [⟨⟨"Сахар", "г"⟩, 5⟩]⟩⟩, ⟨⟨"Торт", [⟨⟨"Сахар", "г"⟩, 5⟩]⟩⟩])
          ("Сахар", "г") =
        (([⟨⟨"Сахар", "г"⟩, 5⟩] : List IngredientAmount).map
          (fun c => c.quantity)).sum ∧
      sortedNames
          [⟨⟨"Торт", [⟨⟨"Сахар", "г"⟩, 5⟩]⟩⟩, ⟨⟨"Торт", [⟨⟨"Сахар", "г"⟩, 5⟩]⟩⟩] =
        ["Торт"] := by
  decide

/-- C3 amended: even when the same recipe is referenced by several cart
entries, the recipe-name section lists each distinct referenced name
exactly once with none omitted; the reported totals, however, sum the
quantities once per cart entry, so the ingredient lines of a recipe
referenced by two cart entries are counted twice. -/
theorem C3_amended_names_exact_totals_per_entry (cart : List CartItem) :
    ((∀ n, n ∈ sortedNames cart ↔ ∃ item ∈ cart, item.recipe.name = n) ∧
      (sortedNames cart).Nodup) ∧
      ∀ k : IngKey, lookupTotal (sortedTotals cart) k = specTotal cart k :=
  ⟨⟨fun n => mem_sortedNames cart n, nodup_sortedNames cart⟩,
    fun k => lookupTotal_sortedTotals cart k⟩

/-- C4: two runs of the export over identical stored cart contents (the
same rows, in whatever order the two retrievals return them) with the
same calendar date produce byte-identical report text. -/
theorem C4_byte_identical_reports (date : String) (c₁ c₂ : List CartItem)
    (h : CartEquiv c₁ c₂) : renderReport date c₁ = renderReport date c₂ :=
  renderReport_equiv h date

/-- Witness for C4 at a concrete date and two retrieval orders of one
cart. -/
theorem C4_byte_identical_reports_witness :
    renderReport "2026-01-01"
        [⟨⟨"Блины", [⟨⟨"Мука", "г"⟩, 200⟩, ⟨⟨"Яйцо", "шт"⟩, 2⟩]⟩⟩,
          ⟨⟨"Омлет", [⟨⟨"Яйцо", "шт"⟩, 3⟩]⟩⟩] =
      renderReport "2026-01-01"
        [⟨⟨"Омлет", [⟨⟨"Яйцо", "шт"⟩, 3⟩]⟩⟩,
          ⟨⟨"Блины", [⟨⟨"Яйцо", "шт"⟩, 2⟩, ⟨⟨"Мука", "г"⟩, 200⟩]⟩⟩] :=
  C4_byte_identical_reports "2026-01-01"
    [⟨⟨"Блины", [⟨⟨"Мука", "г"⟩, 200⟩, ⟨⟨"Яйцо", "шт"⟩, 2⟩]⟩⟩,
      ⟨⟨"Омлет", [⟨⟨"Яйцо", "шт"⟩, 3⟩]⟩⟩]
    [⟨⟨"Омлет", [⟨⟨"Яйцо", "шт"⟩, 3⟩]⟩⟩,
      ⟨⟨"Блины", [⟨⟨"Яйцо", "шт"⟩, 2⟩, ⟨⟨"Мука", "г"⟩, 200⟩]⟩⟩]
    (by decide)

/-- C5: the rendered report is the date header line
"Список покупок (date):", the header "Ингредиенты:", the 1-based
contiguously numbered ingredient lines "n. Name (unit) — total" with the
name title-cased, a blank line, the header "Источники рецептов:", and
the 1-based contiguously numbered recipe names — the layout described by
the spec (the date string is the strftime("%Y-%m-%d") value passed in). -/
theorem C5_report_layout (date : String) (cart : List CartItem) :
    renderReport date cart = specReport date cart := by
  have hing : (enumerateFrom 1 (sortedTotals cart)).map
      (fun p => formatIngredientLine p.1 p.2.1 p.2.2) =
      (sortedTotals cart).enum.map
        (fun p => formatIngredientLine (p.1 + 1) p.2.1 p.2.2) := by
    rw [← enumerateFrom_zero_enum]
    exact enumerateFrom_map_succ (sortedTotals cart) _ 0
  have hrec : (enumerateFrom 1 (sortedNames cart)).map
      (fun p => formatRecipeLine p.1 p.2) =
      (sortedNames cart).enum.map (fun p => formatRecipeLine (p.1 + 1) p.2) := by
    rw [← enumerateFrom_zero_enum]
    exact enumerateFrom_map_succ (sortedNames cart) _ 0
  unfold renderReport reportLines specReport
  rw [hing, hrec]
  simp only [List.cons_append, List.nil_append]
  simp only [joinLines, glueLines, glueLines_append]
  have hlit : ("\nИсточники рецептов:" : String) =
      "\n" ++ "Источники рецептов:" := rfl
  rw [hlit]
  simp only [String.append_assoc, String.empty_append]

/-- C6: the aggregation key is the raw stored (name, unit) pair compared
case-sensitively, so two ingredient lines whose names differ only in
letter case (same unit) accumulate into two distinct totals entries with
their own sums; title-casing happens only at rendering, where the two
display lines become identical whenever the title-cased names agree. -/
theorem C6_case_sensitive_keys (n₁ n₂ u : String) (q₁ q₂ : Nat)
    (hne : n₁ ≠ n₂) :
    lookupTotal (sortedTotals [⟨⟨"Рецепт", [⟨⟨n₁, u⟩, q₁⟩, ⟨⟨n₂, u⟩, q₂⟩]⟩⟩])
        (n₁, u) = q₁ ∧
      lookupTotal (sortedTotals [⟨⟨"Рецепт", [⟨⟨n₁, u⟩, q₁⟩, ⟨⟨n₂, u⟩, q₂⟩]⟩⟩])
        (n₂, u) = q₂ ∧
      (sortedTotals [⟨⟨"Рецепт", [⟨⟨n₁, u⟩, q₁⟩, ⟨⟨n₂, u⟩, q₂⟩]⟩⟩]).length = 2 ∧
      ∀ idx t, pyTitle n₁ = pyTitle n₂ →
        formatIngredientLine idx (n₁, u) t = formatIngredientLine idx (n₂, u) t := by
  refine ⟨?_, ?_, ?_, ?_⟩
  · rw [lookupTotal_sortedTotals]
    simp [specTotal, compSum, keyOf, Prod.ext_iff, Ne.symm hne]
  · rw [lookupTotal_sortedTotals]
    simp [specTotal, compSum, keyOf, Prod.ext_iff, hne]
  · rw [(sortedTotals_perm _).length_eq]
    simp [ingredientTotals, addComponents, addToTotals, keyOf, Prod.ext_iff,
      Ne.symm hne, hne]
  · intro idx t h
    simp [formatIngredientLine, h]

/-- Witness for C6 at the names "Egg" and "egg" with unit "g": distinct
totals entries with sums 2 and 3, yet identical rendered line text. -/
theorem C6_case_sensitive_keys_witness :
    lookupTotal
        (sortedTotals [⟨⟨"Рецепт", [⟨⟨"Egg", "g"⟩, 2⟩, ⟨⟨"egg", "g"⟩, 3⟩]⟩⟩])
        ("Egg", "g") = 2 ∧
      lookupTotal
        (sortedTotals [⟨⟨"Рецепт", [⟨⟨"Egg", "g"⟩, 2⟩, ⟨⟨"egg", "g"⟩, 3⟩]⟩⟩])
        ("egg", "g") = 3 ∧
      (sortedTotals
        [⟨⟨"Рецепт", [⟨⟨"Egg", "g"⟩, 2⟩, ⟨⟨"egg", "g"⟩, 3⟩]⟩⟩]).length = 2 ∧
      formatIngredientLine 1 ("Egg", "g") 2 =
        formatIngredientLine 1 ("egg", "g") 2 := by
  have h := C6_case_sensitive_keys "Egg" "egg" "g" 2 3 (by decide)
  exact ⟨h.1, h.2.1, h.2.2.1, h.2.2.2 1 2 (by decide)⟩

/-- C7: on an empty cart the export renders the date header, the
ingredient header and the recipe-source header (separated by the blank
line) with zero numbered lines in both sections, and does not fail. -/
theorem C7_empty_cart (date : String) :
    renderReport date [] =
      "Список покупок (" ++ date ++ "):" ++ "\n" ++ "Ингредиенты:" ++ "\n" ++
        "\n" ++ "Источники рецептов:" ∧
    sortedTotals [] = ([] : List (IngKey × Nat)) ∧
    sortedNames [] = ([] : List String) := by
  refine ⟨?_, rfl, rfl⟩
  have he : renderReport date [] = joinLines
      ["Список покупок (" ++ date ++ "):", "Ингредиенты:",
        "\nИсточники рецептов:"] := rfl
  rw [he]
  simp only [joinLines, glueLines]
  have hlit : ("\nИсточники рецептов:" : String) =
      "\n" ++ "Источники рецептов:" := rfl
  rw [hlit]
  simp [String.append_assoc, String.append_empty]

/-- C8: the shopping-list export mutates no stored entity — after any
invocation every table (users, recipes, ingredients, ingredient lines,
cart entries, favorites, follows) is exactly as it was before. -/
theorem C8_export_mutates_nothing (db : Db) (userId : Nat)
    (isAuthenticated : Bool) (date : String) :
    ((export_shopping_list db userId isAuthenticated date).1.users = db.users ∧
      (export_shopping_list db userId isAuthenticated date).1.dishes = db.dishes ∧
      (export_shopping_list db userId isAuthenticated date).1.ingredients =
        db.ingredients ∧
      (export_shopping_list db userId isAuthenticated date).1.ingredientAmounts =
        db.ingredientAmounts ∧
      (export_shopping_list db userId isAuthenticated date).1.shoppingLists =
        db.shoppingLists ∧
      (export_shopping_list db userId isAuthenticated date).1.favorites =
        db.favorites ∧
      (export_shopping_list db userId isAuthenticated date).1.follows =
        db.follows) ∧
    (export_shopping_list db userId isAuthenticated date).1 = db := by
  cases isAuthenticated <;>
    simp [export_shopping_list]

/-- C9: every cart operation preserves the at-most-one-entry-per
(user, recipe) invariant; adding an already-present recipe raises the
validation error and leaves the rows unchanged, and adding an absent
recipe appends exactly one new entry for that pair. -/
theorem C9_cart_pair_uniqueness (rows : List PairRow) (method : String)
    (u r : Nat) :
    (cartInvariant rows → cartInvariant (handle_bookmark rows method u r).1) ∧
    ((∃ e ∈ rows, e.user = u ∧ e.recipe = r) →
      handle_bookmark rows "POST" u r =
        (rows, BookmarkResult.validationError "Уже добавлено")) ∧
    ((¬ ∃ e ∈ rows, e.user = u ∧ e.recipe = r) →
      (handle_bookmark rows "POST" u r).1 = rows ++ [⟨u, r⟩] ∧
      ((handle_bookmark rows "POST" u r).1.filter
          (fun e => e.user == u && e.recipe == r)).length = 1) := by
  have hnone : (¬ ∃ e ∈ rows, e.user = u ∧ e.recipe = r) →
      rows.find? (fun e => e.user == u && e.recipe == r) = none := by
    intro h
    rw [List.find?_eq_none]
    intro e he hpred
    simp only [Bool.and_eq_true, beq_iff_eq] at hpred
    exact h ⟨e, he, hpred⟩
  refine ⟨?_, ?_, ?_⟩
  · intro hinv u' r'
    by_cases hm : method = "POST"
    · subst hm
      by_cases hex : ∃ e ∈ rows, e.user = u ∧ e.recipe = r
      · obtain ⟨e, he, h1, h2⟩ := hex
        have hsome : (rows.find? (fun e => e.user == u && e.recipe == r)).isSome := by
          rw [List.find?_isSome]
          exact ⟨e, he, by simp [h1, h2]⟩
        obtain ⟨x, hx⟩ := Option.isSome_iff_exists.mp hsome
        simp [handle_bookmark, hx]
        exact hinv u' r'
      · have hf := hnone hex
        simp only [handle_bookmark, eq_self_iff_true, if_true, hf]
        rw [List.filter_append]
        by_cases hp : (PairRow.mk u r).user == u' && (PairRow.mk u r).recipe == r'
        · have huv : u = u' ∧ r = r' := by simpa using hp
          obtain ⟨rfl, rfl⟩ := huv
          have hze : rows.filter (fun e => e.user == u && e.recipe == r) = [] := by
            rw [List.filter_eq_nil_iff]
            intro e he hpred
            simp only [Bool.and_eq_true, beq_iff_eq] at hpred
            exact hex ⟨e, he, hpred⟩
          simp [hze, hp]
        · simp only [List.filter_cons]
          rw [if_neg (by simpa using hp)]
          simpa using hinv u' r'
    · simp only [handle_bookmark, if_neg hm]
      calc ((rows.filter (fun e => !(e.user == u && e.recipe == r))).filter
              (fun e => e.user == u' && e.recipe == r')).length
          ≤ (rows.filter (fun e => e.user == u' && e.recipe == r')).length :=
            (List.Sublist.filter _ (List.filter_sublist rows)).length_le
        _ ≤ 1 := hinv u' r'
  · rintro ⟨e, he, h1, h2⟩
    have hsome : (rows.find? (fun e => e.user == u && e.recipe == r)).isSome := by
      rw [List.find?_isSome]
      exact ⟨e, he, by simp [h1, h2]⟩
    obtain ⟨x, hx⟩ := Option.isSome_iff_exists.mp hsome
    simp [handle_bookmark, hx]
  · intro hex
    have hf := hnone hex
    constructor
    · simp [handle_bookmark, hf]
    · have hze : rows.filter (fun e => e.user == u && e.recipe == r) = [] := by
        rw [List.filter_eq_nil_iff]
        intro e he hpred
        simp only [Bool.and_eq_true, beq_iff_eq] at hpred
        exact hex ⟨e, he, hpred⟩
      simp [handle_bookmark, hf, List.filter_append, hze]

/-- Witness for C9: on the one-row table [(1, 1)], POSTing the present
pair (1, 1) keeps the rows and raises the validation error, and POSTing
the absent pair (1, 2) appends exactly that entry. -/
theorem C9_cart_pair_uniqueness_witness :
    (handle_bookmark [⟨1, 1⟩] "POST" 1 1 =
      ([⟨1, 1⟩], BookmarkResult.validationError "Уже добавлено")) ∧
    ((handle_bookmark [⟨1, 1⟩] "POST" 1 2).1 = [⟨1, 1⟩] ++ [⟨1, 2⟩] ∧
      ((handle_bookmark [⟨1, 1⟩] "POST" 1 2).1.filter
          (fun e => e.user == 1 && e.recipe == 2)).length = 1) ∧
    cartInvariant (handle_bookmark [⟨1, 1⟩] "POST" 1 2).1 :=
  ⟨(C9_cart_pair_uniqueness [⟨1, 1⟩] "POST" 1 1).2.1
      ⟨⟨1, 1⟩, by decide, rfl, rfl⟩,
    (C9_cart_pair_uniqueness [⟨1, 1⟩] "POST" 1 2).2.2 (by decide),
    (C9_cart_pair_uniqueness [⟨1, 1⟩] "POST" 1 2).1
      (fun u r => by
        have h : ([(⟨1, 1⟩ : PairRow)].filter
            (fun e => e.user == u && e.recipe == r)).length ≤ 1 := by
          simp [List.filter_cons]
          by_cases h1 : 1 = u ∧ 1 = r
          · obtain ⟨rfl, rfl⟩ := h1
            decide
          · simp [h1]
        exact h)⟩

/-- C10: an unauthenticated caller of the export receives the 403
response with no aggregation performed and no file report produced; the
check is inside the endpoint itself, before any data access. -/
theorem C10_unauthenticated_forbidden (db : Db) (userId : Nat) (date : String) :
    export_shopping_list db userId false date =
      (db, ExportResult.forbidden 403 "Требуется авторизация") ∧
    ∀ content contentType filename,
      (export_shopping_list db userId false date).2 ≠
        ExportResult.file content contentType filename := by
  constructor
  · rfl
  · intro c ct f h
    simp [export_shopping_list] at h

end Foodgram
